import Mathlib

/-!
Verification of the sqlmesh plan/apply orchestration spec against the code.

The repository's `src/sqlmesh/magics.py` (the notebook front-end) is embedded
directly.  The core engine (snapshot store, plan builder, environment manager,
interval scheduler, janitor) is not part of the sample sources; following the
spec, those parts are modelled from the spec's own words and each such
definition is marked `Modelled from the spec:` in its doc comment.
-/

namespace SqlMeshSpec

/-! ### Embedding of `pass_sqlmesh_context` (src/sqlmesh/magics.py lines 47-98) -/

/-- The list `CONTEXT_VARIABLE_NAMES = ["context", "ctx", "sqlmesh"]` from
src/sqlmesh/magics.py lines 47-51. -/
def CONTEXT_VARIABLE_NAMES : List String := ["context", "ctx", "sqlmesh"]

/-- A value bound in the IPython user namespace: either a `Context` instance
(carrying an abstract context of type `Ctx`) or anything else.  This reflects
the `isinstance(context, Context)` test in the wrapper. -/
inductive NsValue (Ctx : Type) where
  | contextVal (c : Ctx)
  | otherVal
deriving DecidableEq

/-- The user namespace: a partial map from variable names to bound values,
reflecting `self._shell.user_ns.get(variable_name)`. -/
def UserNs (Ctx : Type) : Type := String → Option (NsValue Ctx)

/-- The lookup loop of `pass_sqlmesh_context` (magics.py lines 57-60): walk the
candidate names in order and return the first bound `Context` instance; a name
bound to a non-`Context` value does not stop the loop. -/
def lookupContext {Ctx : Type} (ns : UserNs Ctx) : List String → Option Ctx
  | [] => none
  | n :: rest =>
    match ns n with
    | some (NsValue.contextVal c) => some c
    | _ => lookupContext ns rest

/-- The context resolution performed by the wrapper: first name among
`CONTEXT_VARIABLE_NAMES` bound to a `Context` instance, if any. -/
def findContext {Ctx : Type} (ns : UserNs Ctx) : Option Ctx :=
  lookupContext ns CONTEXT_VARIABLE_NAMES

/-- Errors raised by the front-end layer. -/
inductive MagicErr where
  | missingContext
  | sqlMeshError (msg : String)
deriving DecidableEq

/-- Control-flow skeleton of the wrapper (magics.py lines 56-93): if no
candidate name is bound to a `Context`, raise `MissingContextException` without
invoking the wrapped body; otherwise invoke the body on the found context. -/
def passSqlmeshContext {Ctx A : Type} (ns : UserNs Ctx) (body : Ctx → A) :
    Except MagicErr A :=
  match findContext ns with
  | none => Except.error MagicErr.missingContext
  | some c => Except.ok (body c)

/-- State touched by the wrapper's console swap: the context's console
(`context.console`), the globally-set console (`set_console`), and the rest of
the mutable state the body may change. -/
structure MagicState (C R : Type) where
  ctxConsole : C
  globalConsole : C
  rest : R
deriving DecidableEq

/-- Console-swap semantics of the wrapper (magics.py lines 65-96):
`old_console = context.console`; a fresh console `newC` is installed both as
the context's console and globally; the body runs (`none` models an exception
propagating out, in which case no restore happens, exactly as in the code,
which has no try/finally); on normal return both consoles are set back to
`old_console`. -/
def wrapperConsoles {C R : Type} (newC : C) (s : MagicState C R)
    (body : MagicState C R → Option (MagicState C R)) : Option (MagicState C R) :=
  match body (MagicState.mk newC newC s.rest) with
  | none => none
  | some s2 => some (MagicState.mk s.ctxConsole s.ctxConsole s2.rest)

/-! ### Embedding of the `run_dag` magic (src/sqlmesh/magics.py lines 576-591) -/

/-- `CompletionStatus` as exposed at the boundary.  Modelled from the spec:
`run(...) -> CompletionStatus with success or failure` (section 6); the class
itself is not among the sample sources. -/
inductive CompletionStatus where
  | success
  | failure
deriving DecidableEq

/-- The `is_failure` test used at magics.py line 590. -/
def CompletionStatus.isFailure : CompletionStatus → Bool
  | CompletionStatus.success => false
  | CompletionStatus.failure => true

/-- Tail of the `run_dag` magic (magics.py lines 580-591): given the
`CompletionStatus` returned by `context.run`, raise `SQLMeshError` when it is a
failure, otherwise return normally. -/
def runDagMagic (s : CompletionStatus) : Except MagicErr Unit :=
  if s.isFailure then
    Except.error (MagicErr.sqlMeshError "Error Running DAG. Check logs for details.")
  else Except.ok ()

/-! ### Snapshot store.  Modelled from the spec: section 4.2; the store itself
is not among the sample sources. -/

/-- A snapshot record: `(model_identifier, fingerprint, version_number)`
projection of the spec's Snapshot (section 3). -/
structure SnapshotRec where
  modelId : String
  fingerprintStr : String
  version : Nat
deriving DecidableEq

/-- The durable registry of snapshot records. -/
structure SnapshotStore where
  snapshots : List SnapshotRec
deriving DecidableEq

/-- Membership test for an existing `(model, fingerprint)` pair. -/
def SnapshotStore.findSnap (st : SnapshotStore) (m f : String) : Option SnapshotRec :=
  st.snapshots.find? (fun s => s.modelId == m && s.fingerprintStr == f)

/-- Largest version number already allocated for a model (0 when none). -/
def SnapshotStore.maxVersionFor (st : SnapshotStore) (m : String) : Nat :=
  (st.snapshots.filter (fun s => s.modelId == m)).foldl
    (fun a s => max a s.version) 0

/-- Modelled from the spec: section 4.2, `get_or_create(model, fingerprint)` is
idempotent — returns the existing snapshot if the fingerprint is already known
for that model, else allocates a new version number monotonically per model. -/
def SnapshotStore.getOrCreate (st : SnapshotStore) (m f : String) :
    SnapshotRec × SnapshotStore :=
  match st.findSnap m f with
  | some s => (s, st)
  | none =>
    let v := st.maxVersionFor m + 1
    let s : SnapshotRec := SnapshotRec.mk m f v
    (s, SnapshotStore.mk (s :: st.snapshots))

/-! ### Change categorization.  Modelled from the spec: sections 4.3 (step 2)
and 9; the plan builder is not among the sample sources. -/

/-- Change categories (spec section 3 / glossary). -/
inductive Category where
  | breaking
  | nonBreaking
  | metadataOnly
deriving DecidableEq

/-- Structural diff of one model change, as consumed by the classifier (spec
section 4.3 step 2): schema/grain changes are breaking by default;
metadata-only edits are metadata_only; other query changes may be structurally
ambiguous. -/
structure ChangeDiff where
  schemaChange : Bool
  metadataOnlyEdit : Bool
  structurallyAmbiguous : Bool
deriving DecidableEq

/-- Automatic categorization modes (spec section 4.3 step 2). -/
inductive AutoMode where
  | semi
  | full
  | off
deriving DecidableEq

/-- Modelled from the spec: sections 4.3 step 2 and 9 — the resolution function
`classify(diff, mode, user_override?) -> Category | Ambiguous`; `none` means
the change remains ambiguous after the automatic categorizer runs.
Semi-automatic resolves only unambiguous cases, full-automatic never prompts,
off always requires user input. -/
def classify (d : ChangeDiff) (mode : AutoMode) (override : Option Category) :
    Option Category :=
  match override with
  | some c => some c
  | none =>
    if d.schemaChange then some Category.breaking
    else if d.metadataOnlyEdit then some Category.metadataOnly
    else
      match mode with
      | AutoMode.off => none
      | AutoMode.semi =>
        if d.structurallyAmbiguous then none else some Category.nonBreaking
      | AutoMode.full => some Category.nonBreaking

/-- One changed model presented to the plan builder. -/
structure ChangeSpec where
  name : String
  diff : ChangeDiff
  override : Option Category
deriving DecidableEq

/-- Failure modes of plan construction (spec section 7). -/
inductive PlanError where
  | categorizationAmbiguous
  | noGapsViolation
deriving DecidableEq

/-- Modelled from the spec: section 4.3 step 2 and section 7 — categorize every
changed model; an ambiguous case is surfaced as a prompt in interactive mode
and is a hard failure in `no_prompts` mode, never silently defaulted. -/
def categorizeChanges (noPrompts : Bool) (mode : AutoMode)
    (prompt : String → Category) :
    List ChangeSpec → Except PlanError (List (String × Category))
  | [] => Except.ok []
  | c :: rest =>
    match classify c.diff mode c.override with
    | some cat =>
      match categorizeChanges noPrompts mode prompt rest with
      | Except.ok p => Except.ok ((c.name, cat) :: p)
      | Except.error e => Except.error e
    | none =>
      if noPrompts then Except.error PlanError.categorizationAmbiguous
      else
        match categorizeChanges noPrompts mode prompt rest with
        | Except.ok p => Except.ok ((c.name, prompt c.name) :: p)
        | Except.error e => Except.error e

/-! ### No-gaps enforcement.  Modelled from the spec: section 4.3 step 5; the
plan builder is not among the sample sources. -/

/-- One required snapshot inside a plan at the point of the no-gaps check: its
interval ledger (computed `[start, end)` ranges), the required time range for
its model, and the backfill intervals the plan commits to fill.  Time is
quantized to abstract cadence units (`Nat`). -/
structure SnapPlanEntry where
  name : String
  ledger : List (Nat × Nat)
  reqStart : Nat
  reqEnd : Nat
  backfill : List (Nat × Nat)
deriving DecidableEq

/-- Whether time point `t` lies inside one of the `[start, end)` intervals. -/
def coveredBy (l : List (Nat × Nat)) (t : Nat) : Bool :=
  l.any (fun i => decide (i.1 ≤ t) && decide (t < i.2))

/-- Whether a required snapshot would retain a gap: some point of the required
range is neither in the ledger nor in the plan's backfill. -/
def entryHasGap (sp : SnapPlanEntry) : Bool :=
  (List.range (sp.reqEnd - sp.reqStart)).any
    (fun k =>
      !(coveredBy sp.ledger (sp.reqStart + k) || coveredBy sp.backfill (sp.reqStart + k)))

/-- The no-gaps verification over every required snapshot of the plan. -/
def checkNoGaps (snaps : List SnapPlanEntry) : Bool :=
  snaps.all (fun sp => !(entryHasGap sp))

/-- Modelled from the spec: section 4.3 step 5 — with `no_gaps` set, verify
every required snapshot has either zero missing intervals or an explicit plan
to fill them entirely; otherwise fail plan construction (NoGapsViolation,
section 7) so no partial plan is applied. -/
def buildPlanNoGaps (noGaps : Bool) (snaps : List SnapPlanEntry) :
    Except PlanError (List SnapPlanEntry) :=
  if noGaps && !(checkNoGaps snaps) then Except.error PlanError.noGapsViolation
  else Except.ok snaps

/-! ### Scheduler conflict detection.  Modelled from the spec: section 4.5; the
interval scheduler is not among the sample sources. -/

/-- Outcome of a run: either all dispatched intervals committed, or the run
aborted mid-flight with the distinguished `exit_on_env_update` exit condition,
retaining the intervals committed so far. -/
inductive RunOutcome where
  | completed (committed : List (Nat × Nat))
  | abortedEnvUpdate (exitCode : Int) (committed : List (Nat × Nat))
deriving DecidableEq

/-- Modelled from the spec: section 4.5 — before committing each interval the
scheduler re-checks the target environment's current snapshot_set version
(`obs i` is the version observed before committing the i-th interval, `env0`
the version when the run began); on a mismatch the run aborts with the
distinguished exit condition instead of committing, keeping what was already
committed. -/
def runLoop (exitCode : Int) (obs : Nat → Nat) (env0 : Nat) :
    List (Nat × Nat) → Nat → List (Nat × Nat) → RunOutcome
  | [], _, committed => RunOutcome.completed committed
  | t :: rest, i, committed =>
    if obs i = env0 then runLoop exitCode obs env0 rest (i + 1) (committed ++ [t])
    else RunOutcome.abortedEnvUpdate exitCode committed

/-- A full run: process the pending intervals in order starting with an empty
committed set. -/
def runWithConflictCheck (exitCode : Int) (obs : Nat → Nat) (env0 : Nat)
    (tasks : List (Nat × Nat)) : RunOutcome :=
  runLoop exitCode obs env0 tasks 0 []

/-! ### Janitor.  Modelled from the spec: section 4.6; the janitor is not
among the sample sources. -/

/-- An environment record as the janitor sees it (spec section 3):
name, referenced snapshot ids, expiry instant, invalidation mark, and whether
it is the distinguished production environment. -/
structure EnvRec where
  name : String
  snapshotRefs : List Nat
  expiry : Nat
  invalidated : Bool
  isProd : Bool
deriving DecidableEq

/-- A snapshot as the janitor sees it: its id and its TTL expiry instant. -/
structure SnapRef where
  refId : Nat
  ttlExpiry : Nat
deriving DecidableEq

/-- The persisted state the janitor scans. -/
structure JanitorState where
  envs : List EnvRec
  snaps : List SnapRef
deriving DecidableEq

/-- Liveness of an environment at instant `now` (spec sections 3 and 4.6):
production never expires; any other environment is live until invalidated or
past its expiry. -/
def envLive (now : Nat) (e : EnvRec) : Bool :=
  e.isProd || (!e.invalidated && decide (now < e.expiry))

/-- Whether some environment in the list references snapshot `s`. -/
def referencedBy (envs : List EnvRec) (s : SnapRef) : Bool :=
  envs.any (fun e => e.snapshotRefs.contains s.refId)

/-- Modelled from the spec: section 4.6 `reclaim` — first delete every dead
environment (non-production and invalidated or past expiry), then delete every
snapshot that no surviving environment references once past its TTL (or
regardless of TTL when `ignore_ttl` is set, magics.py lines 985-989).
Deletion order is strictly environments-then-snapshots: snapshot retention is
decided against the surviving environments. -/
def reclaim (now : Nat) (ignoreTtl : Bool) (st : JanitorState) : JanitorState :=
  let liveEnvs := st.envs.filter (envLive now)
  let keptSnaps := st.snaps.filter (fun s =>
    referencedBy liveEnvs s || (!ignoreTtl && decide (now < s.ttlExpiry)))
  JanitorState.mk liveEnvs keptSnaps

/-! ### Atomic environment promotion.  Modelled from the spec: section 4.4;
the environment manager is not among the sample sources. -/

/-- An environment's snapshot_set: mapping from model identifier to the
referenced snapshot id (spec section 3). -/
def SnapshotSet : Type := String → Option Nat

/-- Observable state during promotion: the environment store (name to
snapshot_set) plus the backfill ledger written during phase 1. -/
structure PromState where
  envSets : String → Option SnapshotSet
  materialized : List (Nat × Nat × Nat)

/-- Steps of the two-phase promotion (spec section 4.4): materializing a
snapshot's required interval (phase 1, one step per interval) and the single
atomic swap of the environment's snapshot_set (phase 2). -/
inductive PromStep where
  | materializeStep (r s e : Nat)
  | swapStep

/-- Effect of one promotion step.  Materialization only writes the interval
ledger; the swap replaces the target environment's snapshot_set wholesale in
this one step. -/
def execPromStep (target : String) (newSet : SnapshotSet) (st : PromState) :
    PromStep → PromState
  | PromStep.materializeStep r s e =>
    PromState.mk st.envSets ((r, s, e) :: st.materialized)
  | PromStep.swapStep =>
    PromState.mk (fun n => if n = target then some newSet else st.envSets n)
      st.materialized

/-- Modelled from the spec: section 4.4 — a promotion is phase 1 (one
materialization step per required interval) followed by the single phase-2
swap. -/
def promotionSteps (work : List (Nat × Nat × Nat)) : List PromStep :=
  work.map (fun w => PromStep.materializeStep w.1 w.2.1 w.2.2) ++ [PromStep.swapStep]

/-- All states a concurrent reader can observe while a step list executes,
including the initial and final states. -/
def traceFrom (target : String) (newSet : SnapshotSet) :
    PromState → List PromStep → List PromState
  | st, [] => [st]
  | st, p :: ps => st :: traceFrom target newSet (execPromStep target newSet st p) ps

/-- The observable states of a whole promotion of `work` into `target`. -/
def promotionTrace (target : String) (newSet : SnapshotSet)
    (work : List (Nat × Nat × Nat)) (st0 : PromState) : List PromState :=
  traceFrom target newSet st0 (promotionSteps work)

/-- Concrete promotion data used by the C1 witness: the old production
snapshot_set maps model "orders" to snapshot 1. -/
def wOldSet : SnapshotSet := fun n => if n = "orders" then some 1 else none

/-- Concrete new snapshot_set for the C1 witness: "orders" moves to
snapshot 2. -/
def wNewSet : SnapshotSet := fun n => if n = "orders" then some 2 else none

/-- Concrete initial state for the C1 witness: only environment "prod"
exists, bound to `wOldSet`. -/
def wSt0 : PromState :=
  PromState.mk (fun n => if n = "prod" then some wOldSet else none) []

/-! ### Fingerprint/versioning.  Modelled from the spec: sections 4.1 and 4.3
step 1; the fingerprint module is not among the sample sources. -/

/-- A model definition as the fingerprint function sees it: normalized query
text and the identifiers (here `Nat`) of its direct upstream dependencies
(spec section 3). -/
structure ModelDef where
  text : String
  upstreams : List Nat
deriving DecidableEq

/-- A fingerprint: a deterministic hash over a model's normalized definition
and the fingerprints of its upstreams (spec section 3).  The hash is modelled
as the free combination of its inputs, so two fingerprints are equal exactly
when all hashed inputs are. -/
inductive Fingerprint where
  | node (text : String) (ups : List Fingerprint)

/-- Fuel-indexed bottom-up fingerprint computation: with positive fuel, a
model's fingerprint combines its own text with the fingerprints of its direct
upstreams (spec section 4.3 step 1).  The fuel only needs to exceed the
model's height in the dependency graph. -/
def fpF (M : Nat → ModelDef) : Nat → Nat → Fingerprint
  | 0, _ => Fingerprint.node "" []
  | fuel + 1, n =>
    Fingerprint.node (M n).text (((M n).upstreams).map (fun u => fpF M fuel u))

/-- Modelled from the spec: section 4.1 `fingerprint(model,
upstream_fingerprints)` — the fingerprint of model `n` in graph `M`, where
`h` ranks each model strictly above its upstreams (the graph is acyclic). -/
def fingerprintOf (M : Nat → ModelDef) (h : Nat → Nat) (n : Nat) : Fingerprint :=
  fpF M (h n + 1) n

/-- Transitive downstream dependency: `DependsOn M m u` holds when model `m`
depends on model `u` through one or more direct upstream edges of `M`. -/
inductive DependsOn (M : Nat → ModelDef) : Nat → Nat → Prop where
  | direct : ∀ {m u : Nat}, u ∈ (M m).upstreams → DependsOn M m u
  | through : ∀ {m w u : Nat}, w ∈ (M m).upstreams → DependsOn M w u →
      DependsOn M m u

/-- Two-model graph for the C5 witness: model 1 reads from model 0. -/
def wGraphOld : Nat → ModelDef
  | 0 => ModelDef.mk "SELECT 1 AS x" []
  | 1 => ModelDef.mk "SELECT x FROM a" [0]
  | _ + 2 => ModelDef.mk "" []

/-- The same graph after editing only the upstream model 0's query text. -/
def wGraphNew : Nat → ModelDef
  | 0 => ModelDef.mk "SELECT 2 AS x" []
  | 1 => ModelDef.mk "SELECT x FROM a" [0]
  | _ + 2 => ModelDef.mk "" []

end SqlMeshSpec

namespace SqlMeshSpec

/-! ### Theorems -/

theorem lookupContext_none {Ctx : Type} (ns : UserNs Ctx) (names : List String)
    (h : ∀ n ∈ names, ∀ c : Ctx, ns n ≠ some (NsValue.contextVal c)) :
    lookupContext ns names = none := by
  induction names with
  | nil => rfl
  | cons n rest ih =>
    have hn := h n (List.mem_cons_self n rest)
    have hrest : ∀ m ∈ rest, ∀ c : Ctx, ns m ≠ some (NsValue.contextVal c) :=
      fun m hm => h m (List.mem_cons_of_mem n hm)
    unfold lookupContext
    cases hns : ns n with
    | none => simpa using ih hrest
    | some v =>
      cases v with
      | contextVal c => exact absurd hns (hn c)
      | otherVal => simpa using ih hrest

/-- C9: if none of the user-namespace names `context`, `ctx`, `sqlmesh` is
bound to a `Context` instance, the wrapper errors with
`MissingContextException` for every possible body (so the body is never
invoked); and if the name at position `i` is the first one bound to a
`Context` instance `c`, the wrapper invokes the body on exactly that `c`. -/
theorem passSqlmeshContext_resolution {Ctx A : Type} (ns : UserNs Ctx) :
    ((∀ n ∈ CONTEXT_VARIABLE_NAMES, ∀ c : Ctx, ns n ≠ some (NsValue.contextVal c)) →
      ∀ body : Ctx → A, passSqlmeshContext ns body = Except.error MagicErr.missingContext) ∧
    (∀ (i : Nat) (hi : i < CONTEXT_VARIABLE_NAMES.length) (c : Ctx),
      ns (CONTEXT_VARIABLE_NAMES.get ⟨i, hi⟩) = some (NsValue.contextVal c) →
      (∀ j (hj : j < i),
        ∀ c' : Ctx, ns (CONTEXT_VARIABLE_NAMES.get
          ⟨j, Nat.lt_trans hj hi⟩) ≠ some (NsValue.contextVal c')) →
      ∀ body : Ctx → A, passSqlmeshContext ns body = Except.ok (body c)) := by
  constructor
  · intro h body
    unfold passSqlmeshContext findContext
    rw [lookupContext_none ns CONTEXT_VARIABLE_NAMES h]
  · intro i hi c hfound hfirst body
    unfold passSqlmeshContext findContext
    have hi3 : i < 3 := by simpa [CONTEXT_VARIABLE_NAMES] using hi
    interval_cases i
    · unfold CONTEXT_VARIABLE_NAMES at hfound ⊢
      simp only [List.get] at hfound
      unfold lookupContext
      rw [hfound]
    · have h0 := hfirst 0 (by omega)
      unfold CONTEXT_VARIABLE_NAMES at hfound h0 ⊢
      simp only [List.get] at hfound h0
      unfold lookupContext
      cases hns : ns "context" with
      | none =>
        unfold lookupContext
        rw [hfound]
      | some v =>
        cases v with
        | contextVal c' => exact absurd hns (h0 c')
        | otherVal =>
          unfold lookupContext
          rw [hfound]
    · have h0 := hfirst 0 (by omega)
      have h1 := hfirst 1 (by omega)
      unfold CONTEXT_VARIABLE_NAMES at hfound h0 h1 ⊢
      simp only [List.get] at hfound h0 h1
      unfold lookupContext
      cases hns : ns "context" with
      | none =>
        unfold lookupContext
        cases hns1 : ns "ctx" with
        | none =>
          unfold lookupContext
          rw [hfound]
        | some v =>
          cases v with
          | contextVal c' => exact absurd hns1 (h1 c')
          | otherVal =>
            unfold lookupContext
            rw [hfound]
      | some v =>
        cases v with
        | contextVal c' => exact absurd hns (h0 c')
        | otherVal =>
          unfold lookupContext
          cases hns1 : ns "ctx" with
          | none =>
            unfold lookupContext
            rw [hfound]
          | some v1 =>
            cases v1 with
            | contextVal c' => exact absurd hns1 (h1 c')
            | otherVal =>
              unfold lookupContext
              rw [hfound]

/-- Witness for C9: a concrete namespace binding `ctx` (but not `context`) to a
context instance; the wrapper passes that instance to the body. -/
theorem passSqlmeshContext_resolution_witness :
    passSqlmeshContext
      (fun n => if n == "ctx" then some (NsValue.contextVal 42) else
                if n == "context" then some (NsValue.otherVal) else none)
      (fun c : Nat => c + 1) = Except.ok 43 := by
  have h := (@passSqlmeshContext_resolution Nat Nat
      (fun n => if n == "ctx" then some (NsValue.contextVal 42) else
                if n == "context" then some (NsValue.otherVal) else none)).2
      1 (by decide) 42 (by decide)
      (by
        intro j hj c'
        interval_cases j
        simp [CONTEXT_VARIABLE_NAMES])
      (fun c : Nat => c + 1)
  exact h

/-- C10: on the normal-return path (body raises no exception), the wrapper
restores both the context's console and the globally-set console to the
console that was in place on the context before the invocation, while the
body's effect on the rest of the state is kept. -/
theorem wrapperConsoles_restores {C R : Type} (newC : C) (s : MagicState C R)
    (body : MagicState C R → Option (MagicState C R))
    (s2 : MagicState C R)
    (h : body (MagicState.mk newC newC s.rest) = some s2) :
    wrapperConsoles newC s body =
      some (MagicState.mk s.ctxConsole s.ctxConsole s2.rest) := by
  unfold wrapperConsoles
  rw [h]

/-- Witness for C10: a concrete body that changes every field; both console
fields come back to the pre-invocation context console (1). -/
theorem wrapperConsoles_restores_witness :
    wrapperConsoles 9 (MagicState.mk 1 2 0)
      (fun st => some (MagicState.mk 7 8 (st.rest + 5))) =
      some (MagicState.mk 1 1 5) := by
  exact wrapperConsoles_restores 9 (MagicState.mk 1 2 0)
    (fun st => some (MagicState.mk 7 8 (st.rest + 5)))
    (MagicState.mk 7 8 5) rfl

/-- C8: the underlying run's `CompletionStatus` is either success or failure,
and the `run_dag` magic raises `SQLMeshError` exactly when it is a failure; on
success it returns normally. -/
theorem runDagMagic_raises_iff_failure (s : CompletionStatus) :
    (s = CompletionStatus.success ∨ s = CompletionStatus.failure) ∧
    ((∃ e, runDagMagic s = Except.error e) ↔ s = CompletionStatus.failure) ∧
    (s = CompletionStatus.success → runDagMagic s = Except.ok ()) := by
  cases s with
  | success =>
    refine ⟨Or.inl rfl, ?_, fun _ => rfl⟩
    constructor
    · rintro ⟨e, he⟩
      simp [runDagMagic, CompletionStatus.isFailure] at he
    · intro h
      exact absurd h (by decide)
  | failure =>
    refine ⟨Or.inr rfl, ?_, fun h => absurd h (by decide)⟩
    constructor
    · intro _; rfl
    · intro _
      exact ⟨MagicErr.sqlMeshError "Error Running DAG. Check logs for details.", rfl⟩

/-- Witness for C8: `run_dag` raises on a failure status and returns normally
on a success status. -/
theorem runDagMagic_raises_iff_failure_witness :
    (∃ e, runDagMagic CompletionStatus.failure = Except.error e) ∧
    runDagMagic CompletionStatus.success = Except.ok () := by
  exact ⟨(runDagMagic_raises_iff_failure CompletionStatus.failure).2.1.mpr rfl,
    (runDagMagic_raises_iff_failure CompletionStatus.success).2.2 rfl⟩

theorem le_foldl_max_init (l : List SnapshotRec) :
    ∀ a : Nat, a ≤ l.foldl (fun b r => max b r.version) a := by
  induction l with
  | nil => intro a; exact Nat.le_refl a
  | cons x xs ih =>
    intro a
    exact Nat.le_trans (Nat.le_max_left a x.version) (ih (max a x.version))

theorem version_le_foldl_max {l : List SnapshotRec} {s : SnapshotRec}
    (hs : s ∈ l) : ∀ a : Nat, s.version ≤ l.foldl (fun b r => max b r.version) a := by
  induction l with
  | nil => cases hs
  | cons x xs ih =>
    intro a
    cases List.mem_cons.mp hs with
    | inl h =>
      subst h
      exact Nat.le_trans (Nat.le_max_right a s.version) (le_foldl_max_init xs _)
    | inr h => exact ih h (max a x.version)

theorem version_le_maxVersionFor (st : SnapshotStore) (m : String)
    {s : SnapshotRec} (hs : s ∈ st.snapshots) (hm : s.modelId = m) :
    s.version ≤ st.maxVersionFor m := by
  unfold SnapshotStore.maxVersionFor
  exact version_le_foldl_max (List.mem_filter.mpr ⟨hs, by simp [hm]⟩) 0

/-- C3: calling `get_or_create` a second time with the same (model,
fingerprint) pair returns exactly the snapshot and store produced by the first
call (no new version allocated, no duplicate snapshot); and when the
fingerprint is new for the model, the allocated version number is strictly
greater than every version previously allocated for that model. -/
theorem getOrCreate_idempotent_monotone (st : SnapshotStore) (m f : String) :
    ((st.getOrCreate m f).2.getOrCreate m f = st.getOrCreate m f) ∧
    (st.findSnap m f = none →
      ∀ s ∈ st.snapshots, s.modelId = m →
        s.version < (st.getOrCreate m f).1.version) := by
  constructor
  · cases hfind : st.findSnap m f with
    | some s => simp [SnapshotStore.getOrCreate, hfind]
    | none =>
      have hf : (SnapshotStore.mk
          (SnapshotRec.mk m f (st.maxVersionFor m + 1) :: st.snapshots)).findSnap m f =
          some (SnapshotRec.mk m f (st.maxVersionFor m + 1)) := by
        unfold SnapshotStore.findSnap
        simp [List.find?]
      simp [SnapshotStore.getOrCreate, hfind, hf]
  · intro hnone s hs hm
    have hle := version_le_maxVersionFor st m hs hm
    simp only [SnapshotStore.getOrCreate, hnone]
    omega

/-- Witness for C3: a store already holding ("orders", "fp1", version 1);
deploying the new fingerprint "fp2" allocates a strictly larger version. -/
theorem getOrCreate_idempotent_monotone_witness :
    (SnapshotStore.mk [SnapshotRec.mk "orders" "fp1" 1]).findSnap "orders" "fp2" = none ∧
    (SnapshotRec.mk "orders" "fp1" 1).version <
      ((SnapshotStore.mk [SnapshotRec.mk "orders" "fp1" 1]).getOrCreate
        "orders" "fp2").1.version := by
  refine ⟨by decide, ?_⟩
  exact (getOrCreate_idempotent_monotone
    (SnapshotStore.mk [SnapshotRec.mk "orders" "fp1" 1]) "orders" "fp2").2 (by decide)
    (SnapshotRec.mk "orders" "fp1" 1) (by decide) rfl

/-- C2: with `no_prompts` set, if any model's change remains ambiguous after
the automatic categorizer runs, plan construction fails with
CategorizationAmbiguous; and whenever it succeeds, every model's category is
exactly what the classifier resolved — no ambiguous change was silently
assigned a default. -/
theorem noPrompts_ambiguous_hard_failure (mode : AutoMode)
    (prompt : String → Category) (changes : List ChangeSpec) :
    ((∃ c ∈ changes, classify c.diff mode c.override = none) →
      categorizeChanges true mode prompt changes =
        Except.error PlanError.categorizationAmbiguous) ∧
    (∀ p, categorizeChanges true mode prompt changes = Except.ok p →
      ∀ c ∈ changes, ∃ cat,
        classify c.diff mode c.override = some cat ∧ (c.name, cat) ∈ p) := by
  induction changes with
  | nil =>
    constructor
    · rintro ⟨c, hc, -⟩
      cases hc
    · intro p _ c hc
      cases hc
  | cons x rest ih =>
    constructor
    · rintro ⟨c, hc, hcl⟩
      cases List.mem_cons.mp hc with
      | inl h =>
        subst h
        simp [categorizeChanges, hcl]
      | inr h =>
        have hrest := ih.1 ⟨c, h, hcl⟩
        cases hx : classify x.diff mode x.override with
        | none => simp [categorizeChanges, hx]
        | some cat => simp [categorizeChanges, hx, hrest]
    · intro p hp c hc
      cases hx : classify x.diff mode x.override with
      | none => simp [categorizeChanges, hx] at hp
      | some cat =>
        simp only [categorizeChanges, hx] at hp
        cases hrest : categorizeChanges true mode prompt rest with
        | error e => rw [hrest] at hp; cases hp
        | ok q =>
          rw [hrest] at hp
          cases hp
          cases List.mem_cons.mp hc with
          | inl h =>
            subst h
            exact ⟨cat, hx, List.mem_cons_self _ _⟩
          | inr h =>
            obtain ⟨cat', hcl', hmem⟩ := ih.2 q hrest c h
            exact ⟨cat', hcl', List.mem_cons_of_mem _ hmem⟩

/-- Witness for C2: a single non-schema, structurally ambiguous query change
with categorization off and no user override fails plan construction under
`no_prompts`. -/
theorem noPrompts_ambiguous_hard_failure_witness :
    categorizeChanges true AutoMode.off (fun _ => Category.breaking)
      [ChangeSpec.mk "orders" (ChangeDiff.mk false false true) none] =
      Except.error PlanError.categorizationAmbiguous := by
  exact (noPrompts_ambiguous_hard_failure AutoMode.off (fun _ => Category.breaking)
    [ChangeSpec.mk "orders" (ChangeDiff.mk false false true) none]).1
    ⟨ChangeSpec.mk "orders" (ChangeDiff.mk false false true) none,
      List.mem_singleton.mpr rfl, by decide⟩

/-- C6: with `no_gaps` set, if some required snapshot has a point of its
required range covered neither by its ledger nor by the plan's backfill, plan
construction fails with NoGapsViolation and no plan is produced; when every
required range is fully covered the plan is returned unchanged. -/
theorem noGaps_enforcement (snaps : List SnapPlanEntry) :
    ((∃ sp ∈ snaps, ∃ t, sp.reqStart ≤ t ∧ t < sp.reqEnd ∧
        coveredBy sp.ledger t = false ∧ coveredBy sp.backfill t = false) →
      buildPlanNoGaps true snaps = Except.error PlanError.noGapsViolation) ∧
    (checkNoGaps snaps = true → buildPlanNoGaps true snaps = Except.ok snaps) := by
  constructor
  · rintro ⟨sp, hsp, t, hts, hte, hledger, hbackfill⟩
    have hgap : entryHasGap sp = true := by
      unfold entryHasGap
      rw [List.any_eq_true]
      refine ⟨t - sp.reqStart, List.mem_range.mpr (by omega), ?_⟩
      have ht : sp.reqStart + (t - sp.reqStart) = t := by omega
      rw [ht, hledger, hbackfill]
      rfl
    have hcheck : checkNoGaps snaps = false := by
      cases hall : checkNoGaps snaps with
      | false => rfl
      | true =>
        exfalso
        have hall2 : ∀ x ∈ snaps, entryHasGap x = false := by
          simpa [checkNoGaps] using hall
        rw [hall2 sp hsp] at hgap
        cases hgap
    unfold buildPlanNoGaps
    rw [hcheck]
    rfl
  · intro hcheck
    unfold buildPlanNoGaps
    rw [hcheck]
    rfl

/-- Witness for C6: the spec's example with days of January 2024 as time
units — snapshot A with ledger `[1,5)` (2024-01-01 to 2024-01-05) against a
required range `[1,10)` fails under `no_gaps` when the backfill omits
`[5,10)`, and succeeds when the backfill contains it. -/
theorem noGaps_enforcement_witness :
    buildPlanNoGaps true [SnapPlanEntry.mk "A" [(1, 5)] 1 10 []] =
      Except.error PlanError.noGapsViolation ∧
    buildPlanNoGaps true [SnapPlanEntry.mk "A" [(1, 5)] 1 10 [(5, 10)]] =
      Except.ok [SnapPlanEntry.mk "A" [(1, 5)] 1 10 [(5, 10)]] := by
  constructor
  · exact (noGaps_enforcement [SnapPlanEntry.mk "A" [(1, 5)] 1 10 []]).1
      ⟨SnapPlanEntry.mk "A" [(1, 5)] 1 10 [], List.mem_singleton.mpr rfl,
        5, by decide, by decide, by decide, by decide⟩
  · exact (noGaps_enforcement [SnapPlanEntry.mk "A" [(1, 5)] 1 10 [(5, 10)]]).2
      (by decide)

theorem runLoop_aborts (exitCode : Int) (obs : Nat → Nat) (env0 : Nat) :
    ∀ (tasks : List (Nat × Nat)) (i0 k : Nat) (acc : List (Nat × Nat)),
      i0 < tasks.length → obs (k + i0) ≠ env0 → (∀ j < i0, obs (k + j) = env0) →
      runLoop exitCode obs env0 tasks k acc =
        RunOutcome.abortedEnvUpdate exitCode (acc ++ tasks.take i0) := by
  intro tasks
  induction tasks with
  | nil =>
    intro i0 k acc hlen _ _
    exact absurd hlen (Nat.not_lt_zero i0)
  | cons t rest ih =>
    intro i0 k acc hlen hbad hgood
    cases i0 with
    | zero =>
      have h0 : obs k ≠ env0 := by simpa using hbad
      simp [runLoop, h0]
    | succ m =>
      have h0 : obs k = env0 := by
        have := hgood 0 (Nat.succ_pos m)
        simpa using this
      have hrec := ih m (k + 1) (acc ++ [t])
        (by simpa using Nat.lt_of_succ_lt_succ hlen)
        (by
          have hx : k + 1 + m = k + (m + 1) := by omega
          rw [hx]
          exact hbad)
        (by
          intro j hj
          have hx : k + 1 + j = k + (j + 1) := by omega
          rw [hx]
          exact hgood (j + 1) (Nat.succ_lt_succ hj))
      simp only [runLoop, h0, if_pos rfl] at hrec ⊢
      rw [hrec]
      simp [List.take_succ_cons]

/-- C7: if the environment's snapshot_set version observed before committing
interval `i0` differs from the version at run start (a concurrent plan was
applied) while every earlier observation matched, the run aborts with the
distinguished `exit_on_env_update` exit condition and its committed set is
exactly the intervals committed before the abort — they are retained, and no
further interval is committed. -/
theorem run_aborts_on_env_update (exitCode : Int) (obs : Nat → Nat)
    (env0 : Nat) (tasks : List (Nat × Nat)) (i0 : Nat)
    (hlen : i0 < tasks.length) (hbad : obs i0 ≠ env0)
    (hgood : ∀ j < i0, obs j = env0) :
    runWithConflictCheck exitCode obs env0 tasks =
      RunOutcome.abortedEnvUpdate exitCode (tasks.take i0) := by
  have h := runLoop_aborts exitCode obs env0 tasks i0 0 []
    hlen (by simpa using hbad) (by intro j hj; simpa using hgood j hj)
  simpa using h

/-- Witness for C7: three pending intervals, the environment version flips
from 5 to 7 before the second commit; the run aborts with exit code 104 and
only the first interval stays committed. -/
theorem run_aborts_on_env_update_witness :
    runWithConflictCheck 104 (fun i => if i = 0 then 5 else 7) 5
      [(0, 1), (1, 2), (2, 3)] =
      RunOutcome.abortedEnvUpdate 104 [(0, 1)] := by
  exact run_aborts_on_env_update 104 (fun i => if i = 0 then 5 else 7) 5
    [(0, 1), (1, 2), (2, 3)] 1 (by decide) (by decide)
    (by intro j hj; interval_cases j; rfl)

/-- C4: within one `reclaim()` pass, a snapshot referenced by at least one
live environment is never deleted (even past its TTL, since retention of a
referenced snapshot does not consult the TTL at all); environments are
deleted before snapshots, in that snapshot retention is decided exactly
against the environments that survive the pass; and a snapshot whose every
referencing environment is invalidated and past expiry is deleted by that
single pass once it is past its TTL (or `ignore_ttl` is set). -/
theorem janitor_reclaim_safety (now : Nat) (ignoreTtl : Bool) (st : JanitorState) :
    (∀ s ∈ st.snaps,
      (∃ e ∈ st.envs, envLive now e = true ∧ s.refId ∈ e.snapshotRefs) →
      s ∈ (reclaim now ignoreTtl st).snaps) ∧
    ((reclaim now ignoreTtl st).envs = st.envs.filter (envLive now) ∧
      ∀ s ∈ st.snaps,
        (s ∈ (reclaim now ignoreTtl st).snaps ↔
          (referencedBy (st.envs.filter (envLive now)) s = true ∨
            (!ignoreTtl && decide (now < s.ttlExpiry)) = true))) ∧
    (∀ s ∈ st.snaps,
      (∀ e ∈ st.envs, s.refId ∈ e.snapshotRefs →
        e.isProd = false ∧ e.invalidated = true ∧ e.expiry ≤ now) →
      (ignoreTtl = true ∨ s.ttlExpiry ≤ now) →
      s ∉ (reclaim now ignoreTtl st).snaps) := by
  refine ⟨?_, ⟨rfl, ?_⟩, ?_⟩
  · rintro s hs ⟨e, he, hlive, href⟩
    have href2 : referencedBy (st.envs.filter (envLive now)) s = true := by
      unfold referencedBy
      rw [List.any_eq_true]
      exact ⟨e, List.mem_filter.mpr ⟨he, hlive⟩, by simpa using href⟩
    unfold reclaim
    exact List.mem_filter.mpr ⟨hs, by rw [href2]; rfl⟩
  · intro s hs
    constructor
    · intro hmem
      have := (List.mem_filter.mp hmem).2
      rwa [Bool.or_eq_true] at this
    · intro hor
      unfold reclaim
      exact List.mem_filter.mpr ⟨hs, by rw [Bool.or_eq_true]; exact hor⟩
  · intro s hs hdead httl hmem
    have hpred := (List.mem_filter.mp hmem).2
    rw [Bool.or_eq_true] at hpred
    cases hpred with
    | inl hrefd =>
      unfold referencedBy at hrefd
      rw [List.any_eq_true] at hrefd
      obtain ⟨e, hef, hcont⟩ := hrefd
      obtain ⟨hee, hlive⟩ := List.mem_filter.mp hef
      have href : s.refId ∈ e.snapshotRefs := by simpa using hcont
      obtain ⟨hp, hinv, hexp⟩ := hdead e hee href
      unfold envLive at hlive
      rw [hp, hinv] at hlive
      simp at hlive
    | inr httl2 =>
      cases httl with
      | inl hig => rw [hig] at httl2; simp at httl2
      | inr hpast =>
        rw [Bool.and_eq_true] at httl2
        have := of_decide_eq_true httl2.2
        omega

/-- Witness for C4: at instant 100, environment "dev" (invalidated, expired
at 50) references snapshot 1 and production references snapshot 2; both
snapshots are past their TTL (60); one pass keeps snapshot 2 and deletes
snapshot 1. -/
theorem janitor_reclaim_safety_witness :
    SnapRef.mk 2 60 ∈ (reclaim 100 false (JanitorState.mk
      [EnvRec.mk "dev" [1] 50 true false, EnvRec.mk "prod" [2] 0 false true]
      [SnapRef.mk 1 60, SnapRef.mk 2 60])).snaps ∧
    SnapRef.mk 1 60 ∉ (reclaim 100 false (JanitorState.mk
      [EnvRec.mk "dev" [1] 50 true false, EnvRec.mk "prod" [2] 0 false true]
      [SnapRef.mk 1 60, SnapRef.mk 2 60])).snaps := by
  constructor
  · exact (janitor_reclaim_safety 100 false (JanitorState.mk
      [EnvRec.mk "dev" [1] 50 true false, EnvRec.mk "prod" [2] 0 false true]
      [SnapRef.mk 1 60, SnapRef.mk 2 60])).1 (SnapRef.mk 2 60) (by decide)
      ⟨EnvRec.mk "prod" [2] 0 false true, by decide, by decide, by decide⟩
  · exact (janitor_reclaim_safety 100 false (JanitorState.mk
      [EnvRec.mk "dev" [1] 50 true false, EnvRec.mk "prod" [2] 0 false true]
      [SnapRef.mk 1 60, SnapRef.mk 2 60])).2.2 (SnapRef.mk 1 60) (by decide)
      (by
        intro e hee href
        have he2 : e = EnvRec.mk "dev" [1] 50 true false ∨
            e = EnvRec.mk "prod" [2] 0 false true := by simpa using hee
        cases he2 with
        | inl h1 => subst h1; exact ⟨rfl, rfl, by decide⟩
        | inr h2 => subst h2; simp at href
        )
      (Or.inr (by decide))

theorem traceFrom_snapshot_set (target : String) (newSet oldSet : SnapshotSet) :
    ∀ (steps : List PromStep) (st : PromState),
      (st.envSets target = some oldSet ∨ st.envSets target = some newSet) →
      ∀ x ∈ traceFrom target newSet st steps,
        x.envSets target = some oldSet ∨ x.envSets target = some newSet := by
  intro steps
  induction steps with
  | nil =>
    intro st hst x hx
    simp [traceFrom] at hx
    subst hx
    exact hst
  | cons p ps ih =>
    intro st hst x hx
    simp only [traceFrom, List.mem_cons] at hx
    cases hx with
    | inl he =>
      subst he
      exact hst
    | inr hm =>
      have hstep : (execPromStep target newSet st p).envSets target = some oldSet ∨
          (execPromStep target newSet st p).envSets target = some newSet := by
        cases p with
        | materializeStep r s e => simpa [execPromStep] using hst
        | swapStep => exact Or.inr (by simp [execPromStep])
      exact ih (execPromStep target newSet st p) hstep x hm

/-- C1: during a promotion of a plan into an environment, every observable
state binds the target environment's snapshot_set to either the complete old
mapping or the complete new mapping; in particular no observation mixes them,
i.e. maps one model to its new-only snapshot and another to its old-only
snapshot. -/
theorem promotion_atomic (target : String) (newSet oldSet : SnapshotSet)
    (work : List (Nat × Nat × Nat)) (st0 : PromState)
    (h0 : st0.envSets target = some oldSet) :
    ∀ st ∈ promotionTrace target newSet work st0,
      (st.envSets target = some oldSet ∨ st.envSets target = some newSet) ∧
      ∀ obsSet, st.envSets target = some obsSet →
        ¬∃ a b, obsSet a = newSet a ∧ obsSet a ≠ oldSet a ∧
          obsSet b = oldSet b ∧ obsSet b ≠ newSet b := by
  intro st hst
  have hdisj := traceFrom_snapshot_set target newSet oldSet (promotionSteps work)
    st0 (Or.inl h0) st hst
  refine ⟨hdisj, ?_⟩
  rintro obsSet hobs ⟨a, b, h1, h2, h3, h4⟩
  cases hdisj with
  | inl hold =>
    rw [hobs] at hold
    have : obsSet = oldSet := Option.some.inj hold
    subst this
    exact h2 rfl
  | inr hnew =>
    rw [hobs] at hnew
    have : obsSet = newSet := Option.some.inj hnew
    subst this
    exact h4 rfl

/-- Witness for C1: the concrete promotion of "orders" from snapshot 1 to
snapshot 2 in "prod" with one materialization step; the initial observable
state satisfies the atomicity disjunction. -/
theorem promotion_atomic_witness :
    wSt0.envSets "prod" = some wOldSet ∧
    (wSt0.envSets "prod" = some wOldSet ∨ wSt0.envSets "prod" = some wNewSet) := by
  refine ⟨rfl, ?_⟩
  have h := promotion_atomic "prod" wNewSet wOldSet [(2, 0, 5)] wSt0 rfl wSt0
    (by
      unfold promotionTrace promotionSteps
      simp [traceFrom])
  exact h.1

theorem map_eq_map_mem {α β : Type} (f g : α → β) :
    ∀ l : List α, l.map f = l.map g → ∀ x ∈ l, f x = g x := by
  intro l
  induction l with
  | nil =>
    intro _ x hx
    cases hx
  | cons a as ih =>
    intro hmap x hx
    simp only [List.map, List.cons.injEq] at hmap
    cases List.mem_cons.mp hx with
    | inl he =>
      subst he
      exact hmap.1
    | inr hm => exact ih hmap.2 x hm

theorem fpF_ne_at_changed (M M' : Nat → ModelDef) (u : Nat)
    (HTu : (M' u).text ≠ (M u).text) :
    ∀ f, 0 < f → fpF M' f u ≠ fpF M f u := by
  intro f hf heq
  cases f with
  | zero => exact absurd hf (Nat.lt_irrefl 0)
  | succ k =>
    simp only [fpF] at heq
    injection heq with h1 h2
    exact HTu h1

theorem fpF_ne_of_dependsOn (M M' : Nat → ModelDef) (h : Nat → Nat)
    (Hh : ∀ n, ∀ w ∈ (M n).upstreams, h w < h n)
    (HU : ∀ n, (M' n).upstreams = (M n).upstreams) :
    ∀ m u, DependsOn M m u → (M' u).text ≠ (M u).text →
      ∀ f, h m < f → fpF M' f m ≠ fpF M f m := by
  intro m u hdep
  induction hdep with
  | direct hu =>
    rename_i m1 u1
    intro HTu f hf heq
    cases f with
    | zero => exact absurd hf (Nat.not_lt_zero _)
    | succ k =>
      simp only [fpF] at heq
      rw [HU m1] at heq
      injection heq with h1 h2
      have hpt := map_eq_map_mem (fun x => fpF M' k x) (fun x => fpF M k x)
        (M m1).upstreams h2 u1 hu
      have hu1 := Hh m1 u1 hu
      exact fpF_ne_at_changed M M' u1 HTu k (by omega) hpt
  | through hw hdepw ih =>
    rename_i m1 w1 u1
    intro HTu f hf heq
    cases f with
    | zero => exact absurd hf (Nat.not_lt_zero _)
    | succ k =>
      simp only [fpF] at heq
      rw [HU m1] at heq
      injection heq with h1 h2
      have hpt := map_eq_map_mem (fun x => fpF M' k x) (fun x => fpF M k x)
        (M m1).upstreams h2 w1 hw
      have hw1 := Hh m1 w1 hw
      exact ih HTu k (by omega) hpt

/-- C5: in a dependency graph where `h` ranks every model strictly above its
upstreams, changing only the query text of an upstream model `u` (identical
upstream edges everywhere, identical text outside `u`) changes the fingerprint
of every model that transitively depends on `u`, because fingerprints are
computed bottom-up with each model's fingerprint incorporating its upstreams'
fingerprints. -/
theorem fingerprint_propagation (M M' : Nat → ModelDef) (h : Nat → Nat)
    (u m : Nat)
    (Hh : ∀ n, ∀ w ∈ (M n).upstreams, h w < h n)
    (HU : ∀ n, (M' n).upstreams = (M n).upstreams)
    (_HT : ∀ n, n ≠ u → (M' n).text = (M n).text)
    (HTu : (M' u).text ≠ (M u).text)
    (hdep : DependsOn M m u) :
    fingerprintOf M' h m ≠ fingerprintOf M h m :=
  fpF_ne_of_dependsOn M M' h Hh HU m u hdep HTu (h m + 1) (Nat.lt_succ_self _)

/-- Witness for C5: editing only upstream model 0's query text changes the
fingerprint of the untouched downstream model 1. -/
theorem fingerprint_propagation_witness :
    DependsOn wGraphOld 1 0 ∧
    fingerprintOf wGraphNew (fun n => n) 1 ≠ fingerprintOf wGraphOld (fun n => n) 1 := by
  have hdep : DependsOn wGraphOld 1 0 :=
    DependsOn.direct (by simp [wGraphOld])
  refine ⟨hdep, ?_⟩
  exact fingerprint_propagation wGraphOld wGraphNew (fun n => n) 0 1
    (by
      intro n w hw
      rcases n with _ | _ | n
      · simp [wGraphOld] at hw
      · simp [wGraphOld] at hw
        subst hw
        decide
      · simp [wGraphOld] at hw)
    (by
      intro n
      rcases n with _ | _ | n <;> rfl)
    (by
      intro n hn
      rcases n with _ | _ | n
      · exact absurd rfl hn
      · rfl
      · rfl)
    (by decide)
    hdep

end SqlMeshSpec
